import Mathlib

/-!
Shallow embedding of `src/brpc/circuit_breaker.cpp` (the per-endpoint
circuit breaker of brpc): `CircuitBreaker::EmaErrorRecorder` and
`CircuitBreaker`, with sequential semantics.

Modelling conventions:
* C++ `int` / `int64_t` fields and arguments become `ℤ`.
* C++ `double` arithmetic is modelled exactly: every `double` expression
  the source builds is a rational number, and the implicit conversion of
  such an expression back into an `int64_t` variable (which truncates
  toward zero) is `Int.tdiv` of the expression's numerator by its positive
  denominator.  `EPSILON = 0.1`, so the threshold factor `1.0 + EPSILON`
  is `11 / 10`.
* The smoothing coefficient `_smooth = pow(EPSILON, 1.0/window_size)` is
  kept abstract as a fraction `smooth_num / smooth_den` in the
  configuration, constrained by hypotheses (`0 ≤ smooth_num`,
  `smooth_num ≤ smooth_den`, `0 < smooth_den`, i.e. `0 ≤ _smooth ≤ 1`)
  where a proof needs them.
* The atomics of the source are read/written by a single thread here, so
  each compare-and-retry loop succeeds on its first iteration and a
  `fetch_add` is a plain read-then-add; the state is threaded explicitly.
-/

namespace CircuitBreakerModel

/-- Per-estimator configuration: the constructor arguments of
`EmaErrorRecorder`, the gflags it reads, and the derived `_smooth`
represented as the fraction `smooth_num / smooth_den`. -/
structure Config where
  window_size : ℤ
  max_error_percent : ℤ
  smooth_num : ℤ
  smooth_den : ℤ
  min_error_cost_us : ℤ
  max_failed_latency_mutliple : ℤ
deriving DecidableEq

/-- The mutable fields of `CircuitBreaker::EmaErrorRecorder`. -/
structure EmaState where
  init_completed : Bool
  sample_count : ℤ
  ema_error_cost : ℤ
  ema_latency : ℤ
  broken : Bool
deriving DecidableEq

/-- The state established by the `EmaErrorRecorder` constructor. -/
def initState : EmaState :=
  ⟨false, 0, 0, 0, false⟩

/-- Model of `EmaErrorRecorder::UpdateLatency`: EMA update of `_ema_latency` on a
successful call; returns the new value together with the updated state.
The source computes `ema_latency * _smooth + latency * (1 - _smooth)` in
`double` and truncates it into `int64_t`; with `_smooth = num/den` that
value is exactly `(ema_latency * num + latency * (den - num)) / den`. -/
def UpdateLatency (cfg : Config) (latency : ℤ) (s : EmaState) : ℤ × EmaState :=
  let next_ema_latency : ℤ :=
    if s.ema_latency = 0 then latency
    else Int.tdiv (s.ema_latency * cfg.smooth_num +
                   latency * (cfg.smooth_den - cfg.smooth_num)) cfg.smooth_den
  (next_ema_latency, { s with ema_latency := next_ema_latency })

/-- The `max_error_cost` threshold computed in `UpdateErrorCost`:
`ema_latency * _window_size * (_max_error_percent / 100.0) * (1.0 + EPSILON)`
truncated into `int64_t`; exactly
`ema_latency * window_size * max_error_percent * 11 / 1000`. -/
def maxErrorCost (cfg : Config) (ema_latency : ℤ) : ℤ :=
  Int.tdiv (ema_latency * cfg.window_size * cfg.max_error_percent * 11) 1000

/-- Model of `EmaErrorRecorder::UpdateErrorCost`: returns the `healthy` verdict and
the state with `_ema_error_cost` updated. `error_cost` is the first C++
argument (the call latency on failure, `0` on success). -/
def UpdateErrorCost (cfg : Config) (error_cost ema_latency : ℤ)
    (s : EmaState) : Bool × EmaState :=
  let c := min (ema_latency * cfg.max_failed_latency_mutliple) error_cost
  if c ≠ 0 then
    let e := s.ema_error_cost + c
    (decide (e ≤ maxErrorCost cfg ema_latency), { s with ema_error_cost := e })
  else if s.ema_error_cost = 0 then (true, s)
  else if s.ema_error_cost < cfg.min_error_cost_us then
    (true, { s with ema_error_cost := 0 })
  else
    let d := Int.tdiv (s.ema_error_cost * cfg.smooth_num) cfg.smooth_den
    (true, { s with ema_error_cost := d })

/-- The statistics-update phase of `OnCallEnd` (the `if (error_code == 0)`
branch): on success `UpdateLatency` then `UpdateErrorCost(0, ema_latency)`,
on failure `UpdateErrorCost(latency, _ema_latency)`; yields the `healthy`
flag and the state after both updates. -/
def statsStep (cfg : Config) (error_code latency : ℤ)
    (s : EmaState) : Bool × EmaState :=
  if error_code = 0 then
    let ul := UpdateLatency cfg latency s
    UpdateErrorCost cfg 0 ul.1 ul.2
  else
    UpdateErrorCost cfg latency s.ema_latency s

/-- Model of `EmaErrorRecorder::OnCallEnd`: the health verdict for one completed
call, together with the successor state. -/
def OnCallEnd (cfg : Config) (error_code latency : ℤ)
    (s : EmaState) : Bool × EmaState :=
  if s.broken then (false, s)
  else
    let p := statsStep cfg error_code latency s
    let healthy := p.1
    let old_count := p.2.sample_count
    let s2 := { p.2 with sample_count := old_count + 1 }
    let post_init := s2.init_completed || decide (cfg.window_size ≤ old_count)
    let s3 := { s2 with init_completed := post_init }
    if post_init = false then (true, s3)
    else if healthy then (true, s3)
    else (false, { s3 with broken := true })

/-- Model of `EmaErrorRecorder::Reset`: stores `false`/`0` into every field. -/
def Reset (_s : EmaState) : EmaState :=
  ⟨false, 0, 0, 0, false⟩

/-- Sequential execution of a list of `(error_code, latency)` calls;
returns the verdicts in order together with the final state. -/
def runCalls (cfg : Config) (calls : List (ℤ × ℤ))
    (s : EmaState) : List Bool × EmaState :=
  match calls with
  | [] => ([], s)
  | c :: rest =>
    let r := OnCallEnd cfg c.1 c.2 s
    let rr := runCalls cfg rest r.2
    (r.1 :: rr.1, rr.2)

/-- Configuration of a `CircuitBreaker`: one `Config` per window. -/
structure CBConfig where
  long_window : Config
  short_window : Config

/-- State of a `CircuitBreaker`: its two `EmaErrorRecorder` members. -/
structure CBState where
  long_window : EmaState
  short_window : EmaState
deriving DecidableEq

/-- Model of `CircuitBreaker::OnCallEnd`:
`_long_window.OnCallEnd(...) && _short_window.OnCallEnd(...)`, with the
C++ short-circuit of `&&`: the short window is only invoked when the long
window returned `true`. -/
def CircuitBreakerOnCallEnd (cfg : CBConfig) (error_code latency : ℤ)
    (s : CBState) : Bool × CBState :=
  let rl := OnCallEnd cfg.long_window error_code latency s.long_window
  if rl.1 then
    let rs := OnCallEnd cfg.short_window error_code latency s.short_window
    (rl.1 && rs.1, ⟨rl.2, rs.2⟩)
  else (false, ⟨rl.2, s.short_window⟩)

/-- Model of `CircuitBreaker::Reset`: resets both windows, long first. -/
def CircuitBreakerReset (s : CBState) : CBState :=
  ⟨Reset s.long_window, Reset s.short_window⟩

/-- A sample configuration: `window_size = 10`, `max_error_percent = 10`,
`min_error_cost = 1`, `max_failed_latency_multiple = 2`, and
`_smooth = 4/5` (an arbitrary in-range smoothing factor; `EPSILON^(1/10)`
is irrational, and no property proved here depends on its exact value). -/
def sampleCfg : Config :=
  ⟨10, 10, 4, 5, 1, 2⟩

/-! ### Frame lemmas: which fields each phase leaves untouched -/

@[simp]
theorem updateLatency_broken (cfg : Config) (lat : ℤ) (s : EmaState) :
    (UpdateLatency cfg lat s).2.broken = s.broken := rfl

@[simp]
theorem updateLatency_init (cfg : Config) (lat : ℤ) (s : EmaState) :
    (UpdateLatency cfg lat s).2.init_completed = s.init_completed := rfl

@[simp]
theorem updateLatency_count (cfg : Config) (lat : ℤ) (s : EmaState) :
    (UpdateLatency cfg lat s).2.sample_count = s.sample_count := rfl

@[simp]
theorem updateLatency_ecost (cfg : Config) (lat : ℤ) (s : EmaState) :
    (UpdateLatency cfg lat s).2.ema_error_cost = s.ema_error_cost := rfl

@[simp]
theorem updateLatency_fst (cfg : Config) (lat : ℤ) (s : EmaState) :
    (UpdateLatency cfg lat s).1 = (UpdateLatency cfg lat s).2.ema_latency := rfl

@[simp]
theorem updateErrorCost_broken (cfg : Config) (a b : ℤ) (s : EmaState) :
    (UpdateErrorCost cfg a b s).2.broken = s.broken := by
  simp only [UpdateErrorCost]
  split_ifs <;> rfl

@[simp]
theorem updateErrorCost_init (cfg : Config) (a b : ℤ) (s : EmaState) :
    (UpdateErrorCost cfg a b s).2.init_completed = s.init_completed := by
  simp only [UpdateErrorCost]
  split_ifs <;> rfl

@[simp]
theorem updateErrorCost_count (cfg : Config) (a b : ℤ) (s : EmaState) :
    (UpdateErrorCost cfg a b s).2.sample_count = s.sample_count := by
  simp only [UpdateErrorCost]
  split_ifs <;> rfl

@[simp]
theorem updateErrorCost_latency (cfg : Config) (a b : ℤ) (s : EmaState) :
    (UpdateErrorCost cfg a b s).2.ema_latency = s.ema_latency := by
  simp only [UpdateErrorCost]
  split_ifs <;> rfl

@[simp]
theorem statsStep_broken (cfg : Config) (ec lat : ℤ) (s : EmaState) :
    (statsStep cfg ec lat s).2.broken = s.broken := by
  simp only [statsStep]
  split <;> simp

@[simp]
theorem statsStep_init (cfg : Config) (ec lat : ℤ) (s : EmaState) :
    (statsStep cfg ec lat s).2.init_completed = s.init_completed := by
  simp only [statsStep]
  split <;> simp

@[simp]
theorem statsStep_count (cfg : Config) (ec lat : ℤ) (s : EmaState) :
    (statsStep cfg ec lat s).2.sample_count = s.sample_count := by
  simp only [statsStep]
  split <;> simp

theorem onCallEnd_broken_frozen (cfg : Config) (ec lat : ℤ) (s : EmaState)
    (hb : s.broken = true) : OnCallEnd cfg ec lat s = (false, s) := by
  simp [OnCallEnd, hb]

theorem tdiv_nonpos_of_nonpos_of_nonneg (a b : ℤ) (ha : a ≤ 0) (hb : 0 ≤ b) :
    a.tdiv b ≤ 0 := by
  have h : a = -(-a) := by ring
  rw [h, Int.neg_tdiv]
  have h2 : 0 ≤ (-a).tdiv b := Int.tdiv_nonneg (by omega) hb
  omega

/-- With a zero latency EMA the capped cost is `min 0 latency ≤ 0`, so a
failure keeps the accumulator nonpositive and is always judged healthy
(the threshold is 0). -/
theorem updateErrorCost_zero_latency (cfg : Config) (lat : ℤ) (s : EmaState)
    (hnum : 0 ≤ cfg.smooth_num) (hden : 0 ≤ cfg.smooth_den)
    (he : s.ema_error_cost ≤ 0) :
    (UpdateErrorCost cfg lat 0 s).1 = true ∧
    (UpdateErrorCost cfg lat 0 s).2.ema_error_cost ≤ 0 := by
  unfold UpdateErrorCost maxErrorCost
  simp only [zero_mul, Int.zero_tdiv]
  have hmin : min (0:ℤ) lat ≤ 0 := min_le_left 0 lat
  split_ifs with h1 h2 h3
  · refine ⟨by simp only [decide_eq_true_eq]; omega, ?_⟩
    simpa using by omega
  · exact ⟨rfl, he⟩
  · exact ⟨rfl, by simp⟩
  · refine ⟨rfl, ?_⟩
    simpa using tdiv_nonpos_of_nonpos_of_nonneg _ _
      (mul_nonpos_of_nonpos_of_nonneg he hnum) hden

/-- A success call (`error_cost = 0`) with a nonnegative latency EMA is
always judged healthy: the capped cost is 0, so only the decay branch
runs. -/
theorem updateErrorCost_success_true (cfg : Config) (b : ℤ) (s : EmaState)
    (hbm : 0 ≤ b * cfg.max_failed_latency_mutliple) :
    (UpdateErrorCost cfg 0 b s).1 = true := by
  unfold UpdateErrorCost
  have hc : min (b * cfg.max_failed_latency_mutliple) 0 = 0 := min_eq_right hbm
  rw [hc]
  split_ifs <;> rfl

/-- The error-cost accumulator stays nonnegative through
`UpdateErrorCost` when the inputs are nonnegative. -/
theorem updateErrorCost_ecost_nonneg (cfg : Config) (a b : ℤ) (s : EmaState)
    (hnum : 0 ≤ cfg.smooth_num) (hden : 0 ≤ cfg.smooth_den)
    (he : 0 ≤ s.ema_error_cost) (ha : 0 ≤ a)
    (hbm : 0 ≤ b * cfg.max_failed_latency_mutliple) :
    0 ≤ (UpdateErrorCost cfg a b s).2.ema_error_cost := by
  have hmin : 0 ≤ min (b * cfg.max_failed_latency_mutliple) a := le_min hbm ha
  simp only [UpdateErrorCost]
  by_cases hc : min (b * cfg.max_failed_latency_mutliple) a = 0
  · rw [if_neg (not_not_intro hc)]
    split_ifs with h1 h2
    · exact he
    · simp
    · simpa using Int.tdiv_nonneg (mul_nonneg he hnum) hden
  · rw [if_pos hc]
    show 0 ≤ s.ema_error_cost + min (b * cfg.max_failed_latency_mutliple) a
    omega

/-- The latency EMA stays nonnegative through `UpdateLatency` when the
smoothing factor lies in `[0, 1]` and the sample is nonnegative. -/
theorem updateLatency_nonneg (cfg : Config) (lat : ℤ) (s : EmaState)
    (hnum : 0 ≤ cfg.smooth_num) (hns : cfg.smooth_num ≤ cfg.smooth_den)
    (hlat : 0 ≤ lat) (hl : 0 ≤ s.ema_latency) :
    0 ≤ (UpdateLatency cfg lat s).2.ema_latency := by
  unfold UpdateLatency
  split_ifs with h
  · simpa using hlat
  · simpa using Int.tdiv_nonneg
      (add_nonneg (mul_nonneg hl hnum) (mul_nonneg hlat (by omega)))
      (by omega)

/-- When the latch is clear, `OnCallEnd` keeps the EMAs computed by the
statistics phase and increments the sample counter by one. -/
theorem onCallEnd_fields (cfg : Config) (ec lat : ℤ) (s : EmaState)
    (hb : s.broken = false) :
    (OnCallEnd cfg ec lat s).2.ema_latency = (statsStep cfg ec lat s).2.ema_latency ∧
    (OnCallEnd cfg ec lat s).2.ema_error_cost = (statsStep cfg ec lat s).2.ema_error_cost ∧
    (OnCallEnd cfg ec lat s).2.sample_count = s.sample_count + 1 := by
  simp only [OnCallEnd, hb, Bool.false_eq_true, if_false]
  split_ifs <;> simp

/-- A call in the warm-up phase (counter still short of the window)
returns `true`, cannot set the latch, and stays in warm-up. -/
theorem onCallEnd_warmup (cfg : Config) (ec lat : ℤ) (s : EmaState)
    (hb : s.broken = false) (hi : s.init_completed = false)
    (hc : s.sample_count < cfg.window_size) :
    (OnCallEnd cfg ec lat s).1 = true ∧
    (OnCallEnd cfg ec lat s).2.broken = false ∧
    (OnCallEnd cfg ec lat s).2.init_completed = false ∧
    (OnCallEnd cfg ec lat s).2.sample_count = s.sample_count + 1 := by
  have hnle : ¬ (cfg.window_size ≤ s.sample_count) := not_le.mpr hc
  simp [OnCallEnd, hb, hi, hnle]

/-- A call whose statistics phase reports healthy returns `true` and
leaves the latch clear. -/
theorem onCallEnd_healthy_true (cfg : Config) (ec lat : ℤ) (s : EmaState)
    (hb : s.broken = false) (hh : (statsStep cfg ec lat s).1 = true) :
    (OnCallEnd cfg ec lat s).1 = true ∧
    (OnCallEnd cfg ec lat s).2.broken = false := by
  simp only [OnCallEnd, hb, Bool.false_eq_true, if_false, hh]
  split_ifs <;> simp [hb]

/-- Once warm-up is complete after the call, the verdict `OnCallEnd`
returns is exactly the `healthy` flag of the statistics phase. -/
theorem onCallEnd_post_init_verdict (cfg : Config) (ec lat : ℤ) (s : EmaState)
    (hb : s.broken = false)
    (hpi : (OnCallEnd cfg ec lat s).2.init_completed = true) :
    (OnCallEnd cfg ec lat s).1 = (statsStep cfg ec lat s).1 := by
  simp only [OnCallEnd, hb, Bool.false_eq_true, if_false] at hpi ⊢
  split_ifs at hpi ⊢ with h1 h2
  · exfalso
    simp only [statsStep_init, statsStep_count, Bool.or_eq_false_iff,
      decide_eq_false_iff_not, not_le] at h1
    simp at hpi
    rcases hpi with hpi | hpi
    · rw [hpi] at h1
      exact absurd h1.1 (by simp)
    · exact absurd hpi (not_le.mpr h1.2)
  · exact h2.symm
  · simp only [Bool.not_eq_true] at h2
    exact h2.symm

/-- A call that reports `false` leaves the `_broken` latch set: either it
was already set on entry (and the state is untouched), or the call just
stored `true` into it. -/
theorem onCallEnd_false_broken (cfg : Config) (ec lat : ℤ) (s : EmaState)
    (h : (OnCallEnd cfg ec lat s).1 = false) :
    (OnCallEnd cfg ec lat s).2.broken = true := by
  by_cases hb : s.broken = true
  · rw [onCallEnd_broken_frozen cfg ec lat s hb]
    exact hb
  · rw [Bool.not_eq_true] at hb
    simp only [OnCallEnd, hb, Bool.false_eq_true, if_false, statsStep_init,
      statsStep_count] at h ⊢
    by_cases hpost : (s.init_completed || decide (cfg.window_size ≤ s.sample_count)) = false
    · simp [hpost] at h
    · rw [Bool.not_eq_false] at hpost
      by_cases hh : (statsStep cfg ec lat s).1 = true
      · simp [hpost, hh] at h
      · rw [Bool.not_eq_true] at hh
        simp [hpost, hh]

/-- On a state whose latch is set, a whole run of calls reports `false`
throughout and never changes the state. -/
theorem runCalls_broken (cfg : Config) (calls : List (ℤ × ℤ)) (s : EmaState)
    (hb : s.broken = true) :
    runCalls cfg calls s = (List.replicate calls.length false, s) := by
  induction calls with
  | nil => simp [runCalls]
  | cons c rest ih =>
    simp [runCalls, onCallEnd_broken_frozen cfg c.1 c.2 s hb, ih,
      List.replicate_succ]

/-- C2: once `OnCallEnd` returns `false`, the `_broken` latch is set, and
every subsequent call on that estimator returns `false` and leaves the
whole estimator state unchanged, until `Reset`; `_broken` never goes back
to `false` except via `Reset`. -/
theorem broken_latch_sticky (cfg : Config) (s : EmaState) (ec lat : ℤ)
    (calls : List (ℤ × ℤ)) (h : (OnCallEnd cfg ec lat s).1 = false) :
    (OnCallEnd cfg ec lat s).2.broken = true ∧
    runCalls cfg calls (OnCallEnd cfg ec lat s).2 =
      (List.replicate calls.length false, (OnCallEnd cfg ec lat s).2) := by
  have hbroken := onCallEnd_false_broken cfg ec lat s h
  exact ⟨hbroken, runCalls_broken cfg calls _ hbroken⟩

theorem broken_latch_sticky_witness :
    (OnCallEnd sampleCfg 1 10000 ⟨true, 20, 300, 100, false⟩).2.broken = true ∧
    runCalls sampleCfg [((0:ℤ), (5:ℤ)), ((0:ℤ), (7:ℤ))]
        (OnCallEnd sampleCfg 1 10000 ⟨true, 20, 300, 100, false⟩).2 =
      (List.replicate 2 false,
        (OnCallEnd sampleCfg 1 10000 ⟨true, 20, 300, 100, false⟩).2) :=
  broken_latch_sticky sampleCfg ⟨true, 20, 300, 100, false⟩ 1 10000
    [((0:ℤ), (5:ℤ)), ((0:ℤ), (7:ℤ))] (by decide)

/-- C5: `CircuitBreaker::OnCallEnd` always runs the long window; when the
long window reports `false` the short window is not invoked (its state is
untouched) and the breaker reports `false`; when the long window reports
`true` the verdict is the conjunction with the short window's verdict and
the short window's state advances. -/
theorem breaker_short_circuit (cfg : CBConfig) (ec lat : ℤ) (s : CBState) :
    (CircuitBreakerOnCallEnd cfg ec lat s).2.long_window =
      (OnCallEnd cfg.long_window ec lat s.long_window).2 ∧
    ((OnCallEnd cfg.long_window ec lat s.long_window).1 = false →
      (CircuitBreakerOnCallEnd cfg ec lat s).1 = false ∧
      (CircuitBreakerOnCallEnd cfg ec lat s).2.short_window = s.short_window) ∧
    ((OnCallEnd cfg.long_window ec lat s.long_window).1 = true →
      (CircuitBreakerOnCallEnd cfg ec lat s).1 =
        ((OnCallEnd cfg.long_window ec lat s.long_window).1 &&
         (OnCallEnd cfg.short_window ec lat s.short_window).1) ∧
      (CircuitBreakerOnCallEnd cfg ec lat s).2.short_window =
        (OnCallEnd cfg.short_window ec lat s.short_window).2) := by
  cases h : (OnCallEnd cfg.long_window ec lat s.long_window).1 <;>
    simp [CircuitBreakerOnCallEnd, h]

theorem breaker_short_circuit_witness :
    (CircuitBreakerOnCallEnd ⟨sampleCfg, sampleCfg⟩ 0 100
        ⟨⟨false, 0, 0, 0, true⟩, initState⟩).1 = false ∧
    (CircuitBreakerOnCallEnd ⟨sampleCfg, sampleCfg⟩ 0 100
        ⟨⟨false, 0, 0, 0, true⟩, initState⟩).2.short_window = initState :=
  (breaker_short_circuit ⟨sampleCfg, sampleCfg⟩ 0 100
    ⟨⟨false, 0, 0, 0, true⟩, initState⟩).2.1 (by decide)

/-- C9: `Reset` always yields the all-zero, all-false state, whatever the
prior state, and is therefore idempotent. -/
theorem reset_zeroes_idempotent (s : EmaState) :
    Reset s = initState ∧ (Reset s).init_completed = false ∧
    (Reset s).sample_count = 0 ∧ (Reset s).ema_error_cost = 0 ∧
    (Reset s).ema_latency = 0 ∧ (Reset s).broken = false ∧
    Reset (Reset s) = Reset s :=
  ⟨rfl, rfl, rfl, rfl, rfl, rfl, rfl⟩

/-- The concrete scenario of C6: ten successes at latency 100, then one
failure at latency 10000. -/
def c6Calls : List (ℤ × ℤ) :=
  List.replicate 10 ((0:ℤ), (100:ℤ)) ++ [((1:ℤ), (10000:ℤ))]

/-- C6: with `window_size = 10`, `max_error_percent = 10`,
`min_error_cost = 1`, `max_failed_latency_multiple = 2`: after ten
successes at latency 100 the latency EMA is exactly 100 and the error
cost 0; the first subsequent failure at latency 10000 adds
`min(100*2, 10000) = 200` to the error cost, the threshold is 110, the
call returns `false`, and the estimator becomes broken. -/
theorem concrete_trip_scenario :
    (runCalls sampleCfg (List.replicate 10 ((0:ℤ), (100:ℤ))) initState).2.ema_latency
      = 100 ∧
    (runCalls sampleCfg (List.replicate 10 ((0:ℤ), (100:ℤ))) initState).2.ema_error_cost
      = 0 ∧
    min ((100:ℤ) * sampleCfg.max_failed_latency_mutliple) 10000 = 200 ∧
    maxErrorCost sampleCfg 100 = 110 ∧
    (runCalls sampleCfg c6Calls initState).1 = List.replicate 10 true ++ [false] ∧
    (runCalls sampleCfg c6Calls initState).2.ema_error_cost = 200 ∧
    (runCalls sampleCfg c6Calls initState).2.broken = true := by decide

/-- Running from a warm-up state with enough window left keeps the
estimator in warm-up, answers `true` throughout, and advances the sample
counter by the number of calls. -/
theorem warmup_run (cfg : Config) (calls : List (ℤ × ℤ)) :
    ∀ s : EmaState, s.broken = false → s.init_completed = false →
      s.sample_count + calls.length ≤ cfg.window_size →
      (runCalls cfg calls s).1 = List.replicate calls.length true ∧
      (runCalls cfg calls s).2.broken = false ∧
      (runCalls cfg calls s).2.init_completed = false ∧
      (runCalls cfg calls s).2.sample_count = s.sample_count + calls.length := by
  induction calls with
  | nil =>
    intro s hb hi _
    simpa [runCalls] using ⟨hb, hi⟩
  | cons c rest ih =>
    intro s hb hi hlen
    have hc : s.sample_count < cfg.window_size := by
      simp only [List.length_cons] at hlen
      push_cast at hlen
      omega
    obtain ⟨h1, h2, h3, h4⟩ := onCallEnd_warmup cfg c.1 c.2 s hb hi hc
    have hlen' : (OnCallEnd cfg c.1 c.2 s).2.sample_count + rest.length ≤ cfg.window_size := by
      rw [h4]
      simp only [List.length_cons] at hlen
      push_cast at hlen ⊢
      omega
    obtain ⟨r1, r2, r3, r4⟩ := ih (OnCallEnd cfg c.1 c.2 s).2 h2 h3 hlen'
    refine ⟨?_, r2, r3, ?_⟩
    · simp [runCalls, h1, r1, List.replicate_succ]
    · show (runCalls cfg rest (OnCallEnd cfg c.1 c.2 s).2).2.sample_count
        = s.sample_count + ((c :: rest).length : ℤ)
      rw [r4, h4]
      simp only [List.length_cons]
      push_cast
      ring

/-- C3: from a freshly constructed or just-reset estimator with
`window_size = N ≥ 1`, any sequence of at most `N - 1` calls — failures
included — gets answer `true` on every call. -/
theorem warmup_first_calls_true (cfg : Config) (calls : List (ℤ × ℤ))
    (_hN : 1 ≤ cfg.window_size)
    (hlen : (calls.length : ℤ) ≤ cfg.window_size - 1) :
    (runCalls cfg calls initState).1 = List.replicate calls.length true :=
  (warmup_run cfg calls initState rfl rfl
    (by show (0:ℤ) + (calls.length : ℤ) ≤ cfg.window_size; omega)).1

theorem warmup_first_calls_true_witness :
    (runCalls sampleCfg (List.replicate 9 ((1:ℤ), (50:ℤ))) initState).1 =
      List.replicate 9 true :=
  warmup_first_calls_true sampleCfg (List.replicate 9 ((1:ℤ), (50:ℤ)))
    (by decide) (by decide)

/-- A failure observed while the latency EMA is zero keeps the error-cost
accumulator nonpositive, is always judged healthy, and leaves the latency
EMA at zero. -/
theorem onCallEnd_failure_zero (cfg : Config) (ec lat : ℤ) (s : EmaState)
    (hnum : 0 ≤ cfg.smooth_num) (hden : 0 ≤ cfg.smooth_den)
    (hec : ec ≠ 0) (hb : s.broken = false) (hl : s.ema_latency = 0)
    (he : s.ema_error_cost ≤ 0) :
    (OnCallEnd cfg ec lat s).1 = true ∧
    (OnCallEnd cfg ec lat s).2.broken = false ∧
    (OnCallEnd cfg ec lat s).2.ema_latency = 0 ∧
    (OnCallEnd cfg ec lat s).2.ema_error_cost ≤ 0 := by
  have hstats : statsStep cfg ec lat s = UpdateErrorCost cfg lat 0 s := by
    rw [← hl]
    simp [statsStep, hec]
  have hu := updateErrorCost_zero_latency cfg lat s hnum hden he
  have hh : (statsStep cfg ec lat s).1 = true := by rw [hstats]; exact hu.1
  obtain ⟨hret, hbr⟩ := onCallEnd_healthy_true cfg ec lat s hb hh
  obtain ⟨hf1, hf2, _⟩ := onCallEnd_fields cfg ec lat s hb
  refine ⟨hret, hbr, ?_, ?_⟩
  · rw [hf1, hstats, updateErrorCost_latency]
    exact hl
  · rw [hf2, hstats]
    exact hu.2

/-- A run of pure failures from a zero-latency, nonpositive-cost,
unlatched state answers `true` throughout and preserves that shape. -/
theorem failure_run (cfg : Config) (hnum : 0 ≤ cfg.smooth_num)
    (hden : 0 ≤ cfg.smooth_den) :
    ∀ (calls : List (ℤ × ℤ)) (s : EmaState), s.broken = false →
      s.ema_latency = 0 → s.ema_error_cost ≤ 0 → (∀ c ∈ calls, c.1 ≠ 0) →
      (runCalls cfg calls s).1 = List.replicate calls.length true ∧
      (runCalls cfg calls s).2.broken = false ∧
      (runCalls cfg calls s).2.ema_latency = 0 ∧
      (runCalls cfg calls s).2.ema_error_cost ≤ 0 := by
  intro calls
  induction calls with
  | nil =>
    intro s hb hl he _
    simpa [runCalls] using ⟨hb, hl, he⟩
  | cons c rest ih =>
    intro s hb hl he hcalls
    have hec : c.1 ≠ 0 := hcalls c (List.mem_cons_self c rest)
    obtain ⟨h1, h2, h3, h4⟩ :=
      onCallEnd_failure_zero cfg c.1 c.2 s hnum hden hec hb hl he
    obtain ⟨r1, r2, r3, r4⟩ := ih (OnCallEnd cfg c.1 c.2 s).2 h2 h3 h4
      (fun d hd => hcalls d (List.mem_cons_of_mem c hd))
    refine ⟨?_, r2, r3, r4⟩
    simp [runCalls, h1, r1, List.replicate_succ]

/-- C4: feeding only failures to a freshly constructed or just-reset
estimator: every call returns `true`, the latch never sets, and the
latency EMA stays 0 — the capped error cost never exceeds
`0 * max_failed_latency_multiple`, so the breaker cannot trip on a stream
of pure failures. -/
theorem pure_failures_never_trip (cfg : Config) (calls : List (ℤ × ℤ))
    (hnum : 0 ≤ cfg.smooth_num) (hden : 0 ≤ cfg.smooth_den)
    (hcalls : ∀ c ∈ calls, c.1 ≠ 0) :
    (runCalls cfg calls initState).1 = List.replicate calls.length true ∧
    (runCalls cfg calls initState).2.broken = false ∧
    (runCalls cfg calls initState).2.ema_latency = 0 := by
  obtain ⟨h1, h2, h3, _⟩ :=
    failure_run cfg hnum hden calls initState rfl rfl (le_refl 0) hcalls
  exact ⟨h1, h2, h3⟩

theorem pure_failures_never_trip_witness :
    (runCalls sampleCfg (List.replicate 12 ((1:ℤ), (100:ℤ))) initState).1 =
      List.replicate 12 true ∧
    (runCalls sampleCfg (List.replicate 12 ((1:ℤ), (100:ℤ))) initState).2.broken
      = false ∧
    (runCalls sampleCfg (List.replicate 12 ((1:ℤ), (100:ℤ))) initState).2.ema_latency
      = 0 :=
  pure_failures_never_trip sampleCfg (List.replicate 12 ((1:ℤ), (100:ℤ)))
    (by decide) (by decide) (by decide)

/-- A success call on an unlatched state with nonnegative latency EMA is
always judged healthy: returns `true`, keeps the latch clear, and keeps
the latency EMA nonnegative. -/
theorem onCallEnd_success_step (cfg : Config) (lat : ℤ) (s : EmaState)
    (hnum : 0 ≤ cfg.smooth_num) (hns : cfg.smooth_num ≤ cfg.smooth_den)
    (hmult : 0 ≤ cfg.max_failed_latency_mutliple)
    (hb : s.broken = false) (hl : 0 ≤ s.ema_latency) (hlat : 0 ≤ lat) :
    (OnCallEnd cfg 0 lat s).1 = true ∧
    (OnCallEnd cfg 0 lat s).2.broken = false ∧
    0 ≤ (OnCallEnd cfg 0 lat s).2.ema_latency := by
  have hul : 0 ≤ (UpdateLatency cfg lat s).2.ema_latency :=
    updateLatency_nonneg cfg lat s hnum hns hlat hl
  have hstats : statsStep cfg 0 lat s =
      UpdateErrorCost cfg 0 (UpdateLatency cfg lat s).1 (UpdateLatency cfg lat s).2 := by
    simp [statsStep]
  have hh : (statsStep cfg 0 lat s).1 = true := by
    rw [hstats]
    exact updateErrorCost_success_true cfg _ _
      (mul_nonneg (by rw [updateLatency_fst]; exact hul) hmult)
  obtain ⟨hret, hbr⟩ := onCallEnd_healthy_true cfg 0 lat s hb hh
  obtain ⟨hf1, _, _⟩ := onCallEnd_fields cfg 0 lat s hb
  refine ⟨hret, hbr, ?_⟩
  rw [hf1, hstats, updateErrorCost_latency]
  exact hul

/-- A run of successes with nonnegative latencies from an unlatched,
nonnegative-latency state answers `true` throughout. -/
theorem success_run (cfg : Config) (hnum : 0 ≤ cfg.smooth_num)
    (hns : cfg.smooth_num ≤ cfg.smooth_den)
    (hmult : 0 ≤ cfg.max_failed_latency_mutliple) :
    ∀ (calls : List (ℤ × ℤ)) (s : EmaState), s.broken = false →
      0 ≤ s.ema_latency → (∀ c ∈ calls, c.1 = 0 ∧ 0 ≤ c.2) →
      (runCalls cfg calls s).1 = List.replicate calls.length true ∧
      (runCalls cfg calls s).2.broken = false ∧
      0 ≤ (runCalls cfg calls s).2.ema_latency := by
  intro calls
  induction calls with
  | nil =>
    intro s hb hl _
    simpa [runCalls] using ⟨hb, hl⟩
  | cons c rest ih =>
    intro s hb hl hcalls
    obtain ⟨hec, hlat⟩ := hcalls c (List.mem_cons_self c rest)
    have step : (OnCallEnd cfg c.1 c.2 s).1 = true ∧
        (OnCallEnd cfg c.1 c.2 s).2.broken = false ∧
        0 ≤ (OnCallEnd cfg c.1 c.2 s).2.ema_latency := by
      rw [hec]
      exact onCallEnd_success_step cfg c.2 s hnum hns hmult hb hl hlat
    obtain ⟨h1, h2, h3⟩ := step
    obtain ⟨r1, r2, r3⟩ := ih (OnCallEnd cfg c.1 c.2 s).2 h2 h3
      (fun d hd => hcalls d (List.mem_cons_of_mem c hd))
    refine ⟨?_, r2, r3⟩
    simp [runCalls, h1, r1, List.replicate_succ]

/-- C8: an estimator fed only successes with nonnegative latencies from
the initial state returns `true` on every call — warm-up included and
beyond — and never latches broken. -/
theorem all_success_never_trips (cfg : Config) (calls : List (ℤ × ℤ))
    (hnum : 0 ≤ cfg.smooth_num) (hns : cfg.smooth_num ≤ cfg.smooth_den)
    (hmult : 0 ≤ cfg.max_failed_latency_mutliple)
    (hcalls : ∀ c ∈ calls, c.1 = 0 ∧ 0 ≤ c.2) :
    (runCalls cfg calls initState).1 = List.replicate calls.length true ∧
    (runCalls cfg calls initState).2.broken = false := by
  obtain ⟨h1, h2, _⟩ :=
    success_run cfg hnum hns hmult calls initState rfl (le_refl 0) hcalls
  exact ⟨h1, h2⟩

theorem all_success_never_trips_witness :
    (runCalls sampleCfg (List.replicate 12 ((0:ℤ), (100:ℤ))) initState).1 =
      List.replicate 12 true ∧
    (runCalls sampleCfg (List.replicate 12 ((0:ℤ), (100:ℤ))) initState).2.broken
      = false :=
  all_success_never_trips sampleCfg (List.replicate 12 ((0:ℤ), (100:ℤ)))
    (by decide) (by decide) (by decide) (by decide)

/-- C10: with nonnegative call latencies (and the smoothing factor in
`[0,1]`, a nonnegative failed-latency multiple), `ema_latency`,
`ema_error_cost` and `sample_count` are nonnegative initially, after
`Reset`, and after any `OnCallEnd` step from a nonnegative state. -/
theorem state_nonneg_invariant (cfg : Config) (ec lat : ℤ) (s : EmaState)
    (hnum : 0 ≤ cfg.smooth_num) (hns : cfg.smooth_num ≤ cfg.smooth_den)
    (hmult : 0 ≤ cfg.max_failed_latency_mutliple) (hlat : 0 ≤ lat)
    (hs : 0 ≤ s.ema_latency ∧ 0 ≤ s.ema_error_cost ∧ 0 ≤ s.sample_count) :
    (0 ≤ initState.ema_latency ∧ 0 ≤ initState.ema_error_cost ∧
      0 ≤ initState.sample_count) ∧
    (0 ≤ (OnCallEnd cfg ec lat s).2.ema_latency ∧
      0 ≤ (OnCallEnd cfg ec lat s).2.ema_error_cost ∧
      0 ≤ (OnCallEnd cfg ec lat s).2.sample_count) ∧
    (0 ≤ (Reset s).ema_latency ∧ 0 ≤ (Reset s).ema_error_cost ∧
      0 ≤ (Reset s).sample_count) := by
  obtain ⟨h1, h2, h3⟩ := hs
  have hden : 0 ≤ cfg.smooth_den := le_trans hnum hns
  refine ⟨⟨le_refl 0, le_refl 0, le_refl 0⟩, ?_, ⟨le_refl 0, le_refl 0, le_refl 0⟩⟩
  by_cases hbt : s.broken = true
  · rw [onCallEnd_broken_frozen cfg ec lat s hbt]
    exact ⟨h1, h2, h3⟩
  · rw [Bool.not_eq_true] at hbt
    obtain ⟨hf1, hf2, hf3⟩ := onCallEnd_fields cfg ec lat s hbt
    rw [hf1, hf2, hf3]
    by_cases hec : ec = 0
    · have hstats : statsStep cfg ec lat s =
          UpdateErrorCost cfg 0 (UpdateLatency cfg lat s).1 (UpdateLatency cfg lat s).2 := by
        simp [statsStep, hec]
      have hul : 0 ≤ (UpdateLatency cfg lat s).2.ema_latency :=
        updateLatency_nonneg cfg lat s hnum hns hlat h1
      refine ⟨?_, ?_, by omega⟩
      · rw [hstats, updateErrorCost_latency]
        exact hul
      · rw [hstats]
        exact updateErrorCost_ecost_nonneg cfg 0 (UpdateLatency cfg lat s).1
          (UpdateLatency cfg lat s).2 hnum hden
          (by rw [updateLatency_ecost]; exact h2) (le_refl 0)
          (mul_nonneg (by rw [updateLatency_fst]; exact hul) hmult)
    · have hstats : statsStep cfg ec lat s = UpdateErrorCost cfg lat s.ema_latency s := by
        simp [statsStep, hec]
      refine ⟨?_, ?_, by omega⟩
      · rw [hstats, updateErrorCost_latency]
        exact h1
      · rw [hstats]
        exact updateErrorCost_ecost_nonneg cfg lat s.ema_latency s hnum hden h2
          hlat (mul_nonneg h1 hmult)

theorem state_nonneg_invariant_witness :
    (0 ≤ initState.ema_latency ∧ 0 ≤ initState.ema_error_cost ∧
      0 ≤ initState.sample_count) ∧
    (0 ≤ (OnCallEnd sampleCfg 1 7 (⟨true, 5, 30, 100, false⟩ : EmaState)).2.ema_latency ∧
      0 ≤ (OnCallEnd sampleCfg 1 7 (⟨true, 5, 30, 100, false⟩ : EmaState)).2.ema_error_cost ∧
      0 ≤ (OnCallEnd sampleCfg 1 7 (⟨true, 5, 30, 100, false⟩ : EmaState)).2.sample_count) ∧
    (0 ≤ (Reset (⟨true, 5, 30, 100, false⟩ : EmaState)).ema_latency ∧
      0 ≤ (Reset (⟨true, 5, 30, 100, false⟩ : EmaState)).ema_error_cost ∧
      0 ≤ (Reset (⟨true, 5, 30, 100, false⟩ : EmaState)).sample_count) :=
  state_nonneg_invariant sampleCfg 1 7 ⟨true, 5, 30, 100, false⟩
    (by decide) (by decide) (by decide) (by decide)
    ⟨by decide, by decide, by decide⟩

/-- C7: after a success call on an unlatched estimator, the error-cost
accumulator is unchanged at 0 if it was 0, snapped to exactly 0 if it was
strictly below `min_error_cost`, and otherwise multiplied by the
smoothing factor (with the product truncated into `int64_t`). -/
theorem success_decay_floor (cfg : Config) (lat : ℤ) (s : EmaState)
    (hnum : 0 ≤ cfg.smooth_num) (hns : cfg.smooth_num ≤ cfg.smooth_den)
    (hmult : 0 ≤ cfg.max_failed_latency_mutliple)
    (hb : s.broken = false) (hl : 0 ≤ s.ema_latency) (hlat : 0 ≤ lat) :
    (OnCallEnd cfg 0 lat s).2.ema_error_cost =
      if s.ema_error_cost = 0 then 0
      else if s.ema_error_cost < cfg.min_error_cost_us then 0
      else Int.tdiv (s.ema_error_cost * cfg.smooth_num) cfg.smooth_den := by
  obtain ⟨_, hf2, _⟩ := onCallEnd_fields cfg 0 lat s hb
  rw [hf2]
  have hstats : statsStep cfg 0 lat s =
      UpdateErrorCost cfg 0 (UpdateLatency cfg lat s).1 (UpdateLatency cfg lat s).2 := by
    simp [statsStep]
  rw [hstats]
  have hul : 0 ≤ (UpdateLatency cfg lat s).1 := by
    rw [updateLatency_fst]
    exact updateLatency_nonneg cfg lat s hnum hns hlat hl
  have hc : min ((UpdateLatency cfg lat s).1 * cfg.max_failed_latency_mutliple) 0 = 0 :=
    min_eq_right (mul_nonneg hul hmult)
  simp only [UpdateErrorCost, hc, updateLatency_ecost]
  rw [if_neg (by simp)]
  split_ifs with h1 h2
  · simpa using h1
  · simp
  · simp

/-- C1 as stated fails when the capped cost
`min(ema_latency * max_failed_latency_multiple, latency)` is 0: at
`ema_latency = 100`, `ema_error_cost = 200`, `latency = 0`, the claim
demands an unchanged accumulator (`200 + 0`) and an unhealthy verdict
(`200 > 110`), but the code takes the success-path decay
(`200 * 4/5 = 160`) and reports healthy. -/
theorem failure_verdict_claim_false :
    (OnCallEnd sampleCfg 1 0 (⟨true, 20, 200, 100, false⟩ : EmaState)).1 = true ∧
    (OnCallEnd sampleCfg 1 0 (⟨true, 20, 200, 100, false⟩ : EmaState)).2.ema_error_cost
      = 160 ∧
    ¬ ((OnCallEnd sampleCfg 1 0 (⟨true, 20, 200, 100, false⟩ : EmaState)).2.ema_error_cost
          = 200 + min ((100:ℤ) * sampleCfg.max_failed_latency_mutliple) 0 ∧
        (OnCallEnd sampleCfg 1 0 (⟨true, 20, 200, 100, false⟩ : EmaState)).1
          = decide ((200:ℤ) + min ((100:ℤ) * sampleCfg.max_failed_latency_mutliple) 0
              ≤ maxErrorCost sampleCfg 100)) := by decide

/-- C1 (amended): on a non-broken estimator, a failure call whose capped
cost `min(ema_latency * max_failed_latency_multiple, latency)` is nonzero
adds exactly that cost to `ema_error_cost`, the `healthy` verdict is
`(accumulator after the addition ≤ threshold)`, and once warm-up is
complete the call returns exactly that verdict. -/
theorem failure_adds_capped_cost (cfg : Config) (ec lat : ℤ) (s : EmaState)
    (hb : s.broken = false) (hec : ec ≠ 0)
    (hc : min (s.ema_latency * cfg.max_failed_latency_mutliple) lat ≠ 0) :
    (OnCallEnd cfg ec lat s).2.ema_error_cost =
      s.ema_error_cost + min (s.ema_latency * cfg.max_failed_latency_mutliple) lat ∧
    (statsStep cfg ec lat s).1 =
      decide (s.ema_error_cost + min (s.ema_latency * cfg.max_failed_latency_mutliple) lat
        ≤ maxErrorCost cfg s.ema_latency) ∧
    ((OnCallEnd cfg ec lat s).2.init_completed = true →
      (OnCallEnd cfg ec lat s).1 = (statsStep cfg ec lat s).1) := by
  have hstats : statsStep cfg ec lat s = UpdateErrorCost cfg lat s.ema_latency s := by
    simp [statsStep, hec]
  have hU : UpdateErrorCost cfg lat s.ema_latency s =
      (decide (s.ema_error_cost + min (s.ema_latency * cfg.max_failed_latency_mutliple) lat
          ≤ maxErrorCost cfg s.ema_latency),
        { s with ema_error_cost :=
            s.ema_error_cost + min (s.ema_latency * cfg.max_failed_latency_mutliple) lat }) := by
    simp only [UpdateErrorCost]
    rw [if_pos hc]
  obtain ⟨_, hf2, _⟩ := onCallEnd_fields cfg ec lat s hb
  refine ⟨?_, ?_, fun hpi => onCallEnd_post_init_verdict cfg ec lat s hb hpi⟩
  · rw [hf2, hstats, hU]
  · rw [hstats, hU]

theorem failure_adds_capped_cost_witness :
    (OnCallEnd sampleCfg 1 10000 (⟨true, 20, 0, 100, false⟩ : EmaState)).2.ema_error_cost
      = (0:ℤ) + min ((100:ℤ) * sampleCfg.max_failed_latency_mutliple) 10000 ∧
    (statsStep sampleCfg 1 10000 (⟨true, 20, 0, 100, false⟩ : EmaState)).1 =
      decide ((0:ℤ) + min ((100:ℤ) * sampleCfg.max_failed_latency_mutliple) 10000
        ≤ maxErrorCost sampleCfg 100) :=
  ⟨(failure_adds_capped_cost sampleCfg 1 10000 ⟨true, 20, 0, 100, false⟩
      rfl (by decide) (by decide)).1,
   (failure_adds_capped_cost sampleCfg 1 10000 ⟨true, 20, 0, 100, false⟩
      rfl (by decide) (by decide)).2.1⟩

theorem success_decay_floor_witness :
    (OnCallEnd (⟨10, 10, 4, 5, 100, 2⟩ : Config) 0 200
        (⟨true, 15, 50, 100, false⟩ : EmaState)).2.ema_error_cost =
      if (50:ℤ) = 0 then 0
      else if (50:ℤ) < (⟨10, 10, 4, 5, 100, 2⟩ : Config).min_error_cost_us then 0
      else Int.tdiv ((50:ℤ) * (⟨10, 10, 4, 5, 100, 2⟩ : Config).smooth_num)
        (⟨10, 10, 4, 5, 100, 2⟩ : Config).smooth_den :=
  success_decay_floor ⟨10, 10, 4, 5, 100, 2⟩ 200 ⟨true, 15, 50, 100, false⟩
    (by decide) (by decide) (by decide) rfl (by decide) (by decide)

example : maxErrorCost sampleCfg 100 = 110 := by decide
example : (OnCallEnd sampleCfg 0 100 initState).2.ema_latency = 100 := by decide
example :
    (runCalls sampleCfg (List.replicate 10 ((0 : ℤ), (100 : ℤ))) initState).2.sample_count
      = 10 := by decide
example :
    (runCalls sampleCfg (List.replicate 10 ((0 : ℤ), (100 : ℤ))) initState).2.init_completed
      = false := by decide
example :
    (runCalls sampleCfg (List.replicate 10 ((0 : ℤ), (100 : ℤ))) initState).2.ema_latency
      = 100 := by decide

end CircuitBreakerModel
